import Mathlib

/-!
Verification of the per-pixel outlier-rejecting averaging core of the
Average-Image-CLI repository (`src/main.go`), embedded shallowly in Lean.

Modelling conventions:
* A Go `color.Color`'s `RGBA()` quadruple (four `uint32` samples in the
  16-bit range `[0, 65535]`) is a `Pixel` of four naturals.
* Go `float64` arithmetic on these integer samples is embedded as exact
  rational arithmetic (`ℚ`); the standard deviation, a real square root,
  appears in theorem statements as `Real.sqrt`.
* The statistics library (`github.com/montanaflynn/stats`) is not part of
  this repository's sources; `mean` and `sampleVariance` are modelled from
  the spec's Statistics Engine contract (see their doc comments).
* The filter comparison in `meanColor` is the source's
  `v > mean + N*stddev || v < mean - N*stddev` with `stddev = sqrt variance`;
  it is embedded by the exact-arithmetic test `(v - mean)^2 > N^2 * variance`,
  which `rejectSq_iff_sqrt` proves equivalent to the source's form for every
  threshold `N ≥ 0` (every run considered by the spec has `N > 0`).
-/

/-- A pixel as the source sees it after `c.RGBA()`: four channel samples
(red, green, blue, alpha), each an integer in the 16-bit range. -/
structure Pixel where
  r : ℕ
  g : ℕ
  b : ℕ
  a : ℕ
  deriving DecidableEq, Repr

/-- `image.Rectangle`: the bounds of a pixel grid, min inclusive, max
exclusive, not necessarily anchored at the origin. -/
structure Rect where
  minX : ℤ
  minY : ℤ
  maxX : ℤ
  maxY : ℤ
  deriving DecidableEq, Repr

/-- An input image: its bounds plus its pixel lookup (`img.At(x, y).RGBA()`). -/
structure Grid where
  bounds : Rect
  pix : ℤ → ℤ → Pixel

/-- The error cases `meanColor` can return. `emptyInput` stands for the
statistics library's empty-input failure of `stats.Mean` (also the
unreachable post-filter mean failures), `insufficientSamples` for
`SampleStandardDeviation` on fewer than two samples, `allRejected` for the
filter having removed every pixel. -/
inductive CError where
  | emptyInput
  | insufficientSamples
  | allRejected
  deriving DecidableEq, Repr

/-- The fatal outcomes of `main` after decoding: no input files, a bounds
mismatch (offending bounds first, reference bounds second, as in the
source's `log.Fatalf`), or a per-pixel failure at a coordinate. -/
inductive RunError where
  | noFiles
  | dimensionMismatch (bad reference : Rect)
  | pixelError (x y : ℤ) (e : CError)
  deriving DecidableEq, Repr

/-- Modelled from the spec: `Mean(values)` of the Statistics Engine
(`stats.Mean`, not in this repository's sources). Returns the arithmetic
mean of a non-empty sequence and fails (`none`) on the empty sequence. -/
def mean (values : List ℚ) : Option ℚ :=
  if values.length = 0 then none
  else some (values.sum / values.length)

/-- Modelled from the spec: the square of `SampleStandardDeviation(values)`
(`stats.StandardDeviationSample`, not in this repository's sources): the
sum of squared deviations from the mean divided by (count − 1), failing
(`none`) when fewer than two values are supplied. The standard deviation
itself is `Real.sqrt` of this value. -/
def sampleVariance (values : List ℚ) : Option ℚ :=
  if values.length < 2 then none
  else
    match mean values with
    | none => none
    | some m => some ((values.map (fun x => (x - m) ^ 2)).sum / (values.length - 1 : ℕ))

/-- The per-channel statistics stage of `meanColor`: `stats.Mean` then
`stats.StandardDeviationSample` (kept as the variance, its square), with
the mean's failure reported first, as in the source. -/
def meanVar (values : List ℚ) : Except CError (ℚ × ℚ) :=
  match mean values with
  | none => .error .emptyInput
  | some m =>
    match sampleVariance values with
    | none => .error .insufficientSamples
    | some v => .ok (m, v)

/-- The source's per-channel rejection test
`v > mean + N*stddev || v < mean - N*stddev` (with
`stddev = Real.sqrt var`), in its exact-arithmetic form: for `N ≥ 0` and
`var ≥ 0` both are equivalent to `(v - mean)^2 > N^2 * var`
(theorem `rejectSq_iff_sqrt`). -/
def rejectSq (v m vr N : ℚ) : Bool :=
  decide ((v - m) ^ 2 > N ^ 2 * vr)

/-- A pixel survives the filter loop of `meanColor` when none of its four
channels triggers a `continue`. -/
def keep (N mr vr mg vg mb vb ma va : ℚ) (c : Pixel) : Bool :=
  !rejectSq (c.r : ℚ) mr vr N && !rejectSq (c.g : ℚ) mg vg N &&
    !rejectSq (c.b : ℚ) mb vb N && !rejectSq (c.a : ℚ) ma va N

/-- The filter loop of `meanColor`: walk the input pixels in order and, for
each one whose four channels all stay inside the band, append its channel
values to the four survivor slices `rsFilt`, `gsFilt`, `bsFilt`, `asFilt`.
A rejection on any channel `continue`s past all four appends. -/
def filterPixels (N mr vr mg vg mb vb ma va : ℚ) :
    List Pixel → List ℚ × List ℚ × List ℚ × List ℚ
  | [] => ([], [], [], [])
  | c :: rest =>
    let t := filterPixels N mr vr mg vg mb vb ma va rest
    if rejectSq (c.r : ℚ) mr vr N then t
    else if rejectSq (c.g : ℚ) mg vg N then t
    else if rejectSq (c.b : ℚ) mb vb N then t
    else if rejectSq (c.a : ℚ) ma va N then t
    else ((c.r : ℚ) :: t.1, (c.g : ℚ) :: t.2.1, (c.b : ℚ) :: t.2.2.1, (c.a : ℚ) :: t.2.2.2)

/-- Go's `uint16(f)` on a non-negative float: truncate toward zero into the
16-bit representation. -/
def toUInt16 (q : ℚ) : ℕ := (⌊q⌋).toNat % 65536

/-- The message of the all-pixels-rejected error in `meanColor`. -/
def allRejectedMsg : String :=
  "standard deviation filter removed all pixels; use a higher --N value to make the filter more permissive"

/-- The message `main` aborts with when `meanColor` fails at a coordinate
(`log.Fatalf("failed to get mean pixel color at x=%v y=%v: %v", ...)`). -/
def fatalPixelMsg (x y : ℤ) (msg : String) : String :=
  "failed to get mean pixel color at x=" ++ toString x ++ " y=" ++ toString y ++ ": " ++ msg

/-- `meanColor(colors)`: per-channel mean and sample variance over the
stack (errors surfacing in channel order r, g, b, a), the filter loop, the
all-rejected check over the four survivor slices, then the per-channel
mean of the survivors truncated into 16-bit samples. -/
def meanColor (colors : List Pixel) (N : ℚ) : Except CError Pixel :=
  let rs := colors.map (fun c => (c.r : ℚ))
  let gs := colors.map (fun c => (c.g : ℚ))
  let bs := colors.map (fun c => (c.b : ℚ))
  let alphas := colors.map (fun c => (c.a : ℚ))
  match meanVar rs, meanVar gs, meanVar bs, meanVar alphas with
  | .ok (mr, vr), .ok (mg, vg), .ok (mb, vb), .ok (ma, va) =>
    let f := filterPixels N mr vr mg vg mb vb ma va colors
    if f.1.length = 0 ∨ f.2.1.length = 0 ∨ f.2.2.1.length = 0 ∨ f.2.2.2.length = 0 then
      .error .allRejected
    else
      match mean f.1, mean f.2.1, mean f.2.2.1, mean f.2.2.2 with
      | some mR, some mG, some mB, some mA =>
        .ok ⟨toUInt16 mR, toUInt16 mG, toUInt16 mB, toUInt16 mA⟩
      | _, _, _, _ => .error .emptyInput
  | .error e, _, _, _ => .error e
  | _, .error e, _, _ => .error e
  | _, _, .error e, _ => .error e
  | _, _, _, .error e => .error e

/-- The coordinates `main` visits: `y` outer from `minY` to `maxY - 1`,
`x` inner from `minX` to `maxX - 1`. -/
def coords (b : Rect) : List (ℤ × ℤ) :=
  (List.range (b.maxY - b.minY).toNat).flatMap (fun (j : ℕ) =>
    (List.range (b.maxX - b.minX).toNat).map (fun (i : ℕ) =>
      (b.minX + (i : ℤ), b.minY + (j : ℤ))))

/-- `colors(x, y, images)`: the stack of pixels at one coordinate, in input
order. -/
def colorsAt (x y : ℤ) (grids : List Grid) : List Pixel :=
  grids.map (fun g => g.pix x y)

/-- The pixel loop of `main`: visit the coordinates in order, aborting at
the first coordinate where `meanColor` fails, otherwise recording each
output pixel. -/
def processPixels (grids : List Grid) (N : ℚ) :
    List (ℤ × ℤ) → Except RunError (List ((ℤ × ℤ) × Pixel))
  | [] => .ok []
  | (x, y) :: rest =>
    match meanColor (colorsAt x y grids) N with
    | .error e => .error (.pixelError x y e)
    | .ok c =>
      match processPixels grids N rest with
      | .error e => .error e
      | .ok out => .ok (((x, y), c) :: out)

/-- `main` after decoding: fail if no input files matched, then fail on the
first grid whose bounds differ from the first grid's, then run the pixel
loop over the shared bounds. -/
def run (grids : List Grid) (N : ℚ) : Except RunError (List ((ℤ × ℤ) × Pixel)) :=
  match grids with
  | [] => .error .noFiles
  | g0 :: _ =>
    match grids.find? (fun g => decide (g.bounds ≠ g0.bounds)) with
    | some g => .error (.dimensionMismatch g.bounds g0.bounds)
    | none => processPixels grids N (coords g0.bounds)

/-- Concrete 1-by-1 demonstration grids (used to instantiate the run-level
theorems at closed inputs). -/
def gridA : Grid := ⟨⟨0, 0, 1, 1⟩, fun _ _ => ⟨0, 0, 0, 0⟩⟩

/-- A second 1-by-1 grid whose pixel differs from `gridA`'s. -/
def gridB : Grid := ⟨⟨0, 0, 1, 1⟩, fun _ _ => ⟨2, 2, 2, 2⟩⟩

/-- A 2-by-2 grid, bounds-incompatible with `gridA`. -/
def gridWide : Grid := ⟨⟨0, 0, 2, 2⟩, fun _ _ => ⟨0, 0, 0, 0⟩⟩

/-! ### Shared lemmas about the embedded definitions -/

theorem mean_of_ne_nil (l : List ℚ) (h : l ≠ []) :
    mean l = some (l.sum / l.length) := by
  unfold mean
  simp [List.length_eq_zero, h]

theorem meanVar_of_two_le (l : List ℚ) (h : 2 ≤ l.length) :
    meanVar l =
      .ok (l.sum / l.length,
        (l.map (fun x => (x - l.sum / l.length) ^ 2)).sum / ((l.length - 1 : ℕ) : ℚ)) := by
  have hne : l ≠ [] := by
    intro hnil
    rw [hnil] at h
    simp at h
  have hm := mean_of_ne_nil l hne
  have h1 : ¬ l.length < 2 := by omega
  unfold meanVar sampleVariance
  rw [hm]
  simp [h1]

theorem sampleVariance_nonneg (l : List ℚ) (v : ℚ) (h : sampleVariance l = some v) :
    0 ≤ v := by
  unfold sampleVariance at h
  by_cases hl : l.length < 2
  · simp [hl] at h
  · have h0 : ¬ l.length = 0 := by omega
    unfold mean at h
    simp [hl, h0] at h
    have hnum : 0 ≤ (l.map (fun x => (x - l.sum / l.length) ^ 2)).sum := by
      apply List.sum_nonneg
      intro a ha
      rcases List.mem_map.mp ha with ⟨x, _, rfl⟩
      positivity
    have hden : (0 : ℚ) ≤ ((l.length - 1 : ℕ) : ℚ) := by positivity
    rw [← h]
    exact div_nonneg hnum hden

theorem sum_eq_zero_iff_of_nonneg (l : List ℚ) (h : ∀ x ∈ l, 0 ≤ x) :
    l.sum = 0 ↔ ∀ x ∈ l, x = 0 := by
  induction l with
  | nil => simp
  | cons a t ih =>
    have ha : 0 ≤ a := h a (List.mem_cons_self a t)
    have ht : ∀ x ∈ t, 0 ≤ x := fun x hx => h x (List.mem_cons_of_mem a hx)
    have hts : 0 ≤ t.sum := List.sum_nonneg ht
    simp only [List.sum_cons, List.mem_cons]
    constructor
    · intro hs
      have haz : a = 0 := by linarith
      have htz : t.sum = 0 := by linarith
      intro x hx
      rcases hx with rfl | hx
      · exact haz
      · exact (ih ht).mp htz x hx
    · intro hall
      have haz : a = 0 := hall a (Or.inl rfl)
      have htz : t.sum = 0 := (ih ht).mpr (fun x hx => hall x (Or.inr hx))
      rw [haz, htz, add_zero]

theorem sq_gt_iff_outside (d t : ℝ) (ht : 0 ≤ t) :
    t ^ 2 < d ^ 2 ↔ t < d ∨ d < -t := by
  constructor
  · intro h
    by_contra hc
    push_neg at hc
    nlinarith [mul_nonneg (by linarith [hc.1] : (0:ℝ) ≤ t - d) (by linarith [hc.2] : (0:ℝ) ≤ d + t)]
  · rintro (h | h) <;> nlinarith

/-- The exact-arithmetic rejection test implements the source's
`v > mean + N*stddev || v < mean - N*stddev` for every `N ≥ 0`. -/
theorem rejectSq_iff_sqrt (v m vr N : ℚ) (hN : 0 ≤ N) (hvr : 0 ≤ vr) :
    rejectSq v m vr N = true ↔
      ((v : ℝ) > (m : ℝ) + (N : ℝ) * Real.sqrt (vr : ℝ) ∨
       (v : ℝ) < (m : ℝ) - (N : ℝ) * Real.sqrt (vr : ℝ)) := by
  unfold rejectSq
  rw [decide_eq_true_iff]
  have hs : 0 ≤ Real.sqrt (vr : ℝ) := Real.sqrt_nonneg _
  have hsq : (Real.sqrt (vr : ℝ)) ^ 2 = (vr : ℝ) := Real.sq_sqrt (by exact_mod_cast hvr)
  have ht : 0 ≤ (N : ℝ) * Real.sqrt (vr : ℝ) := mul_nonneg (by exact_mod_cast hN) hs
  have hcast : (N ^ 2 * vr < (v - m) ^ 2) ↔
      (((N : ℝ) * Real.sqrt (vr : ℝ)) ^ 2 < ((v : ℝ) - (m : ℝ)) ^ 2) := by
    rw [mul_pow, hsq]
    constructor <;> intro h <;> exact_mod_cast h
  rw [gt_iff_lt, hcast, sq_gt_iff_outside _ _ ht]
  constructor
  · rintro (h | h)
    · exact Or.inl (by linarith)
    · exact Or.inr (by linarith)
  · rintro (h | h)
    · exact Or.inl (by linarith)
    · exact Or.inr (by linarith)

/-- The filter loop builds the four survivor slices as the four channel
projections of one shared list of surviving pixels. -/
theorem filterPixels_eq_filter (N mr vr mg vg mb vb ma va : ℚ) (colors : List Pixel) :
    filterPixels N mr vr mg vg mb vb ma va colors =
      ((colors.filter (keep N mr vr mg vg mb vb ma va)).map (fun c => (c.r : ℚ)),
       (colors.filter (keep N mr vr mg vg mb vb ma va)).map (fun c => (c.g : ℚ)),
       (colors.filter (keep N mr vr mg vg mb vb ma va)).map (fun c => (c.b : ℚ)),
       (colors.filter (keep N mr vr mg vg mb vb ma va)).map (fun c => (c.a : ℚ))) := by
  induction colors with
  | nil => rfl
  | cons c rest ih =>
    rcases Bool.eq_false_or_eq_true (rejectSq (c.r : ℚ) mr vr N) with h1 | h1 <;>
      rcases Bool.eq_false_or_eq_true (rejectSq (c.g : ℚ) mg vg N) with h2 | h2 <;>
        rcases Bool.eq_false_or_eq_true (rejectSq (c.b : ℚ) mb vb N) with h3 | h3 <;>
          rcases Bool.eq_false_or_eq_true (rejectSq (c.a : ℚ) ma va N) with h4 | h4 <;>
            simp [filterPixels, List.filter_cons, keep, ih, h1, h2, h3, h4]

theorem mean_replicate (k : ℕ) (c : ℚ) (hk : k ≠ 0) :
    mean (List.replicate k c) = some c := by
  have hne : List.replicate k c ≠ [] := by
    intro h
    have hlen := congrArg List.length h
    simp at hlen
    exact hk hlen
  rw [mean_of_ne_nil _ hne]
  congr 1
  rw [List.sum_replicate, List.length_replicate, nsmul_eq_mul]
  have hkQ : (k : ℚ) ≠ 0 := Nat.cast_ne_zero.mpr hk
  field_simp

theorem sampleVariance_replicate (k : ℕ) (c : ℚ) (hk : 2 ≤ k) :
    sampleVariance (List.replicate k c) = some 0 := by
  have hk0 : k ≠ 0 := by omega
  have h1 : ¬ (List.replicate k c).length < 2 := by
    rw [List.length_replicate]
    omega
  unfold sampleVariance
  rw [mean_replicate k c hk0]
  simp only [h1, if_false, List.map_replicate]
  simp

theorem toUInt16_natCast (n : ℕ) (h : n ≤ 65535) : toUInt16 (n : ℚ) = n := by
  unfold toUInt16
  rw [Int.floor_natCast, Int.toNat_natCast]
  exact Nat.mod_eq_of_lt (by omega)

/-- The success path of `meanColor`: when the statistics stage yields the
given means and variances and at least one pixel survives the filter, the
output pixel is, on each channel, the truncated arithmetic mean of the
survivors' values on that channel. -/
theorem meanColor_ok_eq (colors : List Pixel) (N mr vr mg vg mb vb ma va : ℚ)
    (hmr : meanVar (colors.map (fun c => (c.r : ℚ))) = .ok (mr, vr))
    (hmg : meanVar (colors.map (fun c => (c.g : ℚ))) = .ok (mg, vg))
    (hmb : meanVar (colors.map (fun c => (c.b : ℚ))) = .ok (mb, vb))
    (hma : meanVar (colors.map (fun c => (c.a : ℚ))) = .ok (ma, va))
    (hS : colors.filter (keep N mr vr mg vg mb vb ma va) ≠ []) :
    meanColor colors N =
      .ok ⟨toUInt16 (((colors.filter (keep N mr vr mg vg mb vb ma va)).map (fun c => (c.r : ℚ))).sum /
              ((colors.filter (keep N mr vr mg vg mb vb ma va)).length : ℚ)),
           toUInt16 (((colors.filter (keep N mr vr mg vg mb vb ma va)).map (fun c => (c.g : ℚ))).sum /
              ((colors.filter (keep N mr vr mg vg mb vb ma va)).length : ℚ)),
           toUInt16 (((colors.filter (keep N mr vr mg vg mb vb ma va)).map (fun c => (c.b : ℚ))).sum /
              ((colors.filter (keep N mr vr mg vg mb vb ma va)).length : ℚ)),
           toUInt16 (((colors.filter (keep N mr vr mg vg mb vb ma va)).map (fun c => (c.a : ℚ))).sum /
              ((colors.filter (keep N mr vr mg vg mb vb ma va)).length : ℚ))⟩ := by
  have hlen : (colors.filter (keep N mr vr mg vg mb vb ma va)).length ≠ 0 := by
    simpa [List.length_eq_zero] using hS
  unfold meanColor
  simp only [hmr, hmg, hmb, hma]
  simp only [filterPixels_eq_filter]
  have hmapne : ∀ f : Pixel → ℚ,
      (colors.filter (keep N mr vr mg vg mb vb ma va)).map f ≠ [] := by
    intro f hnil
    apply hS
    have hl := congrArg List.length hnil
    rw [List.length_map] at hl
    simpa [List.length_eq_zero] using hl
  simp only [List.length_map, hlen, if_false, or_self, or_false, false_or]
  rw [mean_of_ne_nil _ (hmapne _), mean_of_ne_nil _ (hmapne _),
    mean_of_ne_nil _ (hmapne _), mean_of_ne_nil _ (hmapne _)]
  simp [List.length_map]

theorem rejectSq_antitone (v m vr N1 N2 : ℚ) (h1 : 0 ≤ N1) (h12 : N1 ≤ N2)
    (hvr : 0 ≤ vr) (h : rejectSq v m vr N2 = true) : rejectSq v m vr N1 = true := by
  unfold rejectSq at h ⊢
  rw [decide_eq_true_iff] at h ⊢
  have hpow : N1 ^ 2 ≤ N2 ^ 2 := by nlinarith
  have : N1 ^ 2 * vr ≤ N2 ^ 2 * vr := mul_le_mul_of_nonneg_right hpow hvr
  linarith

/-- C10: the four survivor slices built by the filter loop always have
equal length; one of them is empty exactly when all four are, and the
source's four-way all-rejected check is equivalent to checking the red
slice alone. -/
theorem survivor_slices_aligned (N mr vr mg vg mb vb ma va : ℚ) (colors : List Pixel) :
    ((filterPixels N mr vr mg vg mb vb ma va colors).1.length =
        (filterPixels N mr vr mg vg mb vb ma va colors).2.1.length ∧
      (filterPixels N mr vr mg vg mb vb ma va colors).2.1.length =
        (filterPixels N mr vr mg vg mb vb ma va colors).2.2.1.length ∧
      (filterPixels N mr vr mg vg mb vb ma va colors).2.2.1.length =
        (filterPixels N mr vr mg vg mb vb ma va colors).2.2.2.length) ∧
    ((filterPixels N mr vr mg vg mb vb ma va colors).1 = [] ↔
      ((filterPixels N mr vr mg vg mb vb ma va colors).1 = [] ∧
        (filterPixels N mr vr mg vg mb vb ma va colors).2.1 = [] ∧
        (filterPixels N mr vr mg vg mb vb ma va colors).2.2.1 = [] ∧
        (filterPixels N mr vr mg vg mb vb ma va colors).2.2.2 = [])) ∧
    (((filterPixels N mr vr mg vg mb vb ma va colors).1.length = 0 ∨
        (filterPixels N mr vr mg vg mb vb ma va colors).2.1.length = 0 ∨
        (filterPixels N mr vr mg vg mb vb ma va colors).2.2.1.length = 0 ∨
        (filterPixels N mr vr mg vg mb vb ma va colors).2.2.2.length = 0) ↔
      (filterPixels N mr vr mg vg mb vb ma va colors).1.length = 0) := by
  rw [filterPixels_eq_filter]
  simp [List.map_eq_nil_iff, List.length_eq_zero]

/-- C3: a channel value lying exactly on the boundary `mean ± N*stddev` is
retained by the rejection test, and a value is rejected exactly when it
lies strictly outside the band. -/
theorem boundary_sample_retained (v m vr N : ℚ) (hN : 0 < N) (hvr : 0 ≤ vr)
    (hb : (v : ℝ) = (m : ℝ) + (N : ℝ) * Real.sqrt (vr : ℝ) ∨
          (v : ℝ) = (m : ℝ) - (N : ℝ) * Real.sqrt (vr : ℝ)) :
    rejectSq v m vr N = false ∧
    ∀ w : ℚ, rejectSq w m vr N = true ↔
      ((w : ℝ) > (m : ℝ) + (N : ℝ) * Real.sqrt (vr : ℝ) ∨
       (w : ℝ) < (m : ℝ) - (N : ℝ) * Real.sqrt (vr : ℝ)) := by
  have hiff := fun w => rejectSq_iff_sqrt w m vr N hN.le hvr
  have ht : 0 ≤ (N : ℝ) * Real.sqrt (vr : ℝ) :=
    mul_nonneg (by exact_mod_cast hN.le) (Real.sqrt_nonneg _)
  refine ⟨?_, hiff⟩
  rw [Bool.eq_false_iff]
  intro htrue
  rcases (hiff v).mp htrue with hout | hout <;> rcases hb with hbv | hbv <;>
    rw [hbv] at hout <;> linarith

/-- C7: the outlier filter is monotone in the threshold: a channel value
rejected at `N2 ≥ N1` was already rejected at `N1`, a whole pixel kept at
`N1` is still kept at `N2`, and the rejected sub-list at `N2` is contained
in the rejected sub-list at `N1`. -/
theorem rejection_antitone_in_threshold (colors : List Pixel)
    (N1 N2 mr vr mg vg mb vb ma va : ℚ) (h1 : 0 < N1) (h12 : N1 ≤ N2)
    (hvr : sampleVariance (colors.map (fun c => (c.r : ℚ))) = some vr)
    (hvg : sampleVariance (colors.map (fun c => (c.g : ℚ))) = some vg)
    (hvb : sampleVariance (colors.map (fun c => (c.b : ℚ))) = some vb)
    (hva : sampleVariance (colors.map (fun c => (c.a : ℚ))) = some va) :
    (∀ c : Pixel, keep N1 mr vr mg vg mb vb ma va c = true →
        keep N2 mr vr mg vg mb vb ma va c = true) ∧
    colors.filter (fun c => !keep N2 mr vr mg vg mb vb ma va c) ⊆
      colors.filter (fun c => !keep N1 mr vr mg vg mb vb ma va c) := by
  have hvr0 := sampleVariance_nonneg _ _ hvr
  have hvg0 := sampleVariance_nonneg _ _ hvg
  have hvb0 := sampleVariance_nonneg _ _ hvb
  have hva0 := sampleVariance_nonneg _ _ hva
  have mono : ∀ v m vv : ℚ, 0 ≤ vv →
      rejectSq v m vv N1 = false → rejectSq v m vv N2 = false := by
    intro v m vv hvv hfalse
    rw [Bool.eq_false_iff]
    intro htrue
    rw [rejectSq_antitone v m vv N1 N2 h1.le h12 hvv htrue] at hfalse
    exact Bool.noConfusion hfalse
  have hkeep : ∀ c : Pixel, keep N1 mr vr mg vg mb vb ma va c = true →
      keep N2 mr vr mg vg mb vb ma va c = true := by
    intro c hc
    unfold keep at hc ⊢
    simp only [Bool.and_eq_true, Bool.not_eq_true'] at hc ⊢
    exact ⟨⟨⟨mono _ _ _ hvr0 hc.1.1.1, mono _ _ _ hvg0 hc.1.1.2⟩,
      mono _ _ _ hvb0 hc.1.2⟩, mono _ _ _ hva0 hc.2⟩
  refine ⟨hkeep, ?_⟩
  intro c hc
  rw [List.mem_filter] at hc ⊢
  refine ⟨hc.1, ?_⟩
  have h2 : keep N2 mr vr mg vg mb vb ma va c = false := by
    have := hc.2
    rwa [Bool.not_eq_true'] at this
  rw [Bool.not_eq_true', Bool.eq_false_iff]
  intro hk1
  rw [hkeep c hk1] at h2
  exact Bool.noConfusion h2

/-- C9: the sample standard deviation used by the program (the square root
of the sum of squared deviations from the mean divided by count − 1) is
non-negative, and is zero exactly when all the values are equal. -/
theorem sample_stddev_nonneg_zero_iff_const (l : List ℚ) (v : ℚ)
    (h2 : 2 ≤ l.length) (hv : sampleVariance l = some v) :
    0 ≤ Real.sqrt (v : ℝ) ∧
    (Real.sqrt (v : ℝ) = 0 ↔ ∀ x ∈ l, ∀ y ∈ l, x = y) := by
  have hv0 : 0 ≤ v := sampleVariance_nonneg l v hv
  have hne : l ≠ [] := by
    intro h
    rw [h] at h2
    simp at h2
  have hm := mean_of_ne_nil l hne
  have hlt : ¬ l.length < 2 := by omega
  unfold sampleVariance at hv
  rw [hm] at hv
  simp only [hlt, if_false] at hv
  have hveq : (l.map (fun x => (x - l.sum / l.length) ^ 2)).sum / ((l.length - 1 : ℕ) : ℚ) = v :=
    Option.some.inj hv
  have hdpos : (0 : ℚ) < ((l.length - 1 : ℕ) : ℚ) := by
    have h1 : 0 < l.length - 1 := by omega
    exact_mod_cast h1
  have hnn : ∀ t ∈ l.map (fun x => (x - l.sum / l.length) ^ 2), 0 ≤ t := by
    intro t ht
    rcases List.mem_map.mp ht with ⟨x, _, rfl⟩
    positivity
  have hSiff := sum_eq_zero_iff_of_nonneg _ hnn
  have hv_zero : v = 0 ↔ ∀ x ∈ l, x = l.sum / l.length := by
    rw [← hveq, div_eq_zero_iff]
    constructor
    · rintro (hS | hd)
      · intro x hx
        have hsq : (x - l.sum / l.length) ^ 2 = 0 :=
          hSiff.mp hS ((x - l.sum / l.length) ^ 2) (List.mem_map.mpr ⟨x, hx, rfl⟩)
        exact sub_eq_zero.mp ((pow_eq_zero_iff (two_ne_zero)).mp hsq)
      · exact absurd hd (ne_of_gt hdpos)
    · intro hall
      left
      apply hSiff.mpr
      intro t ht
      rcases List.mem_map.mp ht with ⟨x, hx, rfl⟩
      rw [hall x hx]
      ring
  refine ⟨Real.sqrt_nonneg _, ?_⟩
  rw [Real.sqrt_eq_zero (by exact_mod_cast hv0)]
  rw [show ((v : ℝ) = 0) ↔ v = 0 from by exact_mod_cast Iff.rfl]
  rw [hv_zero]
  constructor
  · intro hall x hx y hy
    rw [hall x hx, hall y hy]
  · intro hpair x hx
    have hc : ∀ e ∈ l, e = l.head hne := fun e he => hpair e he (l.head hne) (List.head_mem hne)
    have hrep : l = List.replicate l.length (l.head hne) := List.eq_replicate_of_mem hc
    have hlen0 : (l.length : ℚ) ≠ 0 := by
      have hz : l.length ≠ 0 := by omega
      exact_mod_cast hz
    have hmean : l.sum / l.length = l.head hne := by
      conv_lhs => rw [hrep]
      rw [List.sum_replicate, List.length_replicate, nsmul_eq_mul]
      exact mul_div_cancel_left₀ _ hlen0
    rw [hmean]
    exact hc x hx

theorem sample_stddev_nonneg_zero_iff_const_witness :
    2 ≤ ([0, 1, 2] : List ℚ).length ∧
    sampleVariance ([0, 1, 2] : List ℚ) = some 1 ∧
    (0 ≤ Real.sqrt ((1 : ℚ) : ℝ) ∧
      (Real.sqrt ((1 : ℚ) : ℝ) = 0 ↔
        ∀ x ∈ ([0, 1, 2] : List ℚ), ∀ y ∈ ([0, 1, 2] : List ℚ), x = y)) :=
  ⟨by decide, by norm_num [sampleVariance, mean],
    sample_stddev_nonneg_zero_iff_const [0, 1, 2] 1 (by decide)
      (by norm_num [sampleVariance, mean])⟩

theorem boundary_sample_retained_witness :
    (0 : ℚ) < 2 ∧ (0 : ℚ) ≤ 1 ∧
    (((7 : ℚ) : ℝ) = ((5 : ℚ) : ℝ) + ((2 : ℚ) : ℝ) * Real.sqrt ((1 : ℚ) : ℝ) ∨
      ((7 : ℚ) : ℝ) = ((5 : ℚ) : ℝ) - ((2 : ℚ) : ℝ) * Real.sqrt ((1 : ℚ) : ℝ)) ∧
    (rejectSq 7 5 1 2 = false ∧
      ∀ w : ℚ, rejectSq w 5 1 2 = true ↔
        ((w : ℝ) > ((5 : ℚ) : ℝ) + ((2 : ℚ) : ℝ) * Real.sqrt ((1 : ℚ) : ℝ) ∨
         (w : ℝ) < ((5 : ℚ) : ℝ) - ((2 : ℚ) : ℝ) * Real.sqrt ((1 : ℚ) : ℝ))) := by
  have hb : ((7 : ℚ) : ℝ) = ((5 : ℚ) : ℝ) + ((2 : ℚ) : ℝ) * Real.sqrt ((1 : ℚ) : ℝ) ∨
      ((7 : ℚ) : ℝ) = ((5 : ℚ) : ℝ) - ((2 : ℚ) : ℝ) * Real.sqrt ((1 : ℚ) : ℝ) := by
    left
    rw [show ((1 : ℚ) : ℝ) = 1 by norm_num, Real.sqrt_one]
    norm_num
  exact ⟨by norm_num, by norm_num, hb,
    boundary_sample_retained 7 5 1 2 (by norm_num) (by norm_num) hb⟩

theorem rejection_antitone_in_threshold_witness :
    (0 : ℚ) < 1 / 2 ∧ (1 / 2 : ℚ) ≤ 1 ∧
    sampleVariance (([⟨0, 0, 0, 0⟩, ⟨2, 2, 2, 2⟩] : List Pixel).map (fun c => (c.r : ℚ))) = some 2 ∧
    sampleVariance (([⟨0, 0, 0, 0⟩, ⟨2, 2, 2, 2⟩] : List Pixel).map (fun c => (c.g : ℚ))) = some 2 ∧
    sampleVariance (([⟨0, 0, 0, 0⟩, ⟨2, 2, 2, 2⟩] : List Pixel).map (fun c => (c.b : ℚ))) = some 2 ∧
    sampleVariance (([⟨0, 0, 0, 0⟩, ⟨2, 2, 2, 2⟩] : List Pixel).map (fun c => (c.a : ℚ))) = some 2 ∧
    ((∀ c : Pixel, keep (1 / 2) 1 2 1 2 1 2 1 2 c = true →
        keep 1 1 2 1 2 1 2 1 2 c = true) ∧
      ([⟨0, 0, 0, 0⟩, ⟨2, 2, 2, 2⟩] : List Pixel).filter
          (fun c => !keep 1 1 2 1 2 1 2 1 2 c) ⊆
        ([⟨0, 0, 0, 0⟩, ⟨2, 2, 2, 2⟩] : List Pixel).filter
          (fun c => !keep (1 / 2) 1 2 1 2 1 2 1 2 c)) :=
  ⟨by norm_num, by norm_num, by norm_num [sampleVariance, mean],
    by norm_num [sampleVariance, mean], by norm_num [sampleVariance, mean],
    by norm_num [sampleVariance, mean],
    rejection_antitone_in_threshold [⟨0, 0, 0, 0⟩, ⟨2, 2, 2, 2⟩] (1 / 2) 1 1 2 1 2 1 2 1 2
      (by norm_num) (by norm_num) (by norm_num [sampleVariance, mean])
      (by norm_num [sampleVariance, mean]) (by norm_num [sampleVariance, mean])
      (by norm_num [sampleVariance, mean])⟩

/-- C1: for a non-empty stack and positive N, whenever the statistics
stage yields its means and variances and at least one pixel survives the
filter, each channel of the pixel `meanColor` returns is the arithmetic
mean of the survivors' values on that channel, computed independently per
channel and truncated to the 16-bit unsigned representation. -/
theorem output_channels_are_survivor_means (colors : List Pixel)
    (N mr vr mg vg mb vb ma va : ℚ) (_hne : colors ≠ []) (_hN : 0 < N)
    (hmr : meanVar (colors.map (fun c => (c.r : ℚ))) = .ok (mr, vr))
    (hmg : meanVar (colors.map (fun c => (c.g : ℚ))) = .ok (mg, vg))
    (hmb : meanVar (colors.map (fun c => (c.b : ℚ))) = .ok (mb, vb))
    (hma : meanVar (colors.map (fun c => (c.a : ℚ))) = .ok (ma, va))
    (hS : colors.filter (keep N mr vr mg vg mb vb ma va) ≠ []) :
    meanColor colors N =
      .ok ⟨toUInt16 (((colors.filter (keep N mr vr mg vg mb vb ma va)).map (fun c => (c.r : ℚ))).sum /
              ((colors.filter (keep N mr vr mg vg mb vb ma va)).length : ℚ)),
           toUInt16 (((colors.filter (keep N mr vr mg vg mb vb ma va)).map (fun c => (c.g : ℚ))).sum /
              ((colors.filter (keep N mr vr mg vg mb vb ma va)).length : ℚ)),
           toUInt16 (((colors.filter (keep N mr vr mg vg mb vb ma va)).map (fun c => (c.b : ℚ))).sum /
              ((colors.filter (keep N mr vr mg vg mb vb ma va)).length : ℚ)),
           toUInt16 (((colors.filter (keep N mr vr mg vg mb vb ma va)).map (fun c => (c.a : ℚ))).sum /
              ((colors.filter (keep N mr vr mg vg mb vb ma va)).length : ℚ))⟩ :=
  meanColor_ok_eq colors N mr vr mg vg mb vb ma va hmr hmg hmb hma hS

theorem output_channels_are_survivor_means_witness :
    ([⟨0, 0, 0, 0⟩, ⟨1, 1, 1, 1⟩, ⟨2, 2, 2, 2⟩] : List Pixel) ≠ [] ∧ (0 : ℚ) < 2 ∧
    meanVar (([⟨0, 0, 0, 0⟩, ⟨1, 1, 1, 1⟩, ⟨2, 2, 2, 2⟩] : List Pixel).map (fun c => (c.r : ℚ))) =
      .ok (1, 1) ∧
    ([⟨0, 0, 0, 0⟩, ⟨1, 1, 1, 1⟩, ⟨2, 2, 2, 2⟩] : List Pixel).filter (keep 2 1 1 1 1 1 1 1 1) ≠ [] ∧
    meanColor [⟨0, 0, 0, 0⟩, ⟨1, 1, 1, 1⟩, ⟨2, 2, 2, 2⟩] 2 = .ok ⟨1, 1, 1, 1⟩ := by
  refine ⟨by decide, by norm_num, by norm_num [meanVar, sampleVariance, mean], ?_, ?_⟩
  · norm_num [List.filter, keep, rejectSq]
    decide
  · have h := output_channels_are_survivor_means [⟨0, 0, 0, 0⟩, ⟨1, 1, 1, 1⟩, ⟨2, 2, 2, 2⟩] 2
      1 1 1 1 1 1 1 1 (by decide) (by norm_num)
      (by norm_num [meanVar, sampleVariance, mean]) (by norm_num [meanVar, sampleVariance, mean])
      (by norm_num [meanVar, sampleVariance, mean]) (by norm_num [meanVar, sampleVariance, mean])
      (by norm_num [List.filter, keep, rejectSq]; decide)
    rw [h]
    norm_num [List.filter, keep, rejectSq, toUInt16]


theorem keep_eq_false_iff (N mr vr mg vg mb vb ma va : ℚ) (c : Pixel) :
    keep N mr vr mg vg mb vb ma va c = false ↔
      (rejectSq (c.r : ℚ) mr vr N = true ∨ rejectSq (c.g : ℚ) mg vg N = true ∨
       rejectSq (c.b : ℚ) mb vb N = true ∨ rejectSq (c.a : ℚ) ma va N = true) := by
  unfold keep
  rcases Bool.eq_false_or_eq_true (rejectSq (c.r : ℚ) mr vr N) with h1 | h1 <;>
    rcases Bool.eq_false_or_eq_true (rejectSq (c.g : ℚ) mg vg N) with h2 | h2 <;>
      rcases Bool.eq_false_or_eq_true (rejectSq (c.b : ℚ) mb vb N) with h3 | h3 <;>
        rcases Bool.eq_false_or_eq_true (rejectSq (c.a : ℚ) ma va N) with h4 | h4 <;>
          simp [h1, h2, h3, h4]

/-- C2: a sample pixel is excluded from the survivor set exactly when at
least one of its four channel values lies strictly outside the band
mean ± N·stddev of that channel, and rejection removes the whole pixel
from all four survivor slices at once: the four slices are the channel
projections of the one shared list of surviving pixels. -/
theorem rejection_per_sample_any_channel (colors : List Pixel)
    (N mr vr mg vg mb vb ma va : ℚ) (hN : 0 < N)
    (hvr : sampleVariance (colors.map (fun c => (c.r : ℚ))) = some vr)
    (hvg : sampleVariance (colors.map (fun c => (c.g : ℚ))) = some vg)
    (hvb : sampleVariance (colors.map (fun c => (c.b : ℚ))) = some vb)
    (hva : sampleVariance (colors.map (fun c => (c.a : ℚ))) = some va) :
    (∀ c ∈ colors,
      c ∉ colors.filter (keep N mr vr mg vg mb vb ma va) ↔
        (((c.r : ℝ) > (mr : ℝ) + (N : ℝ) * Real.sqrt (vr : ℝ) ∨
          (c.r : ℝ) < (mr : ℝ) - (N : ℝ) * Real.sqrt (vr : ℝ)) ∨
         ((c.g : ℝ) > (mg : ℝ) + (N : ℝ) * Real.sqrt (vg : ℝ) ∨
          (c.g : ℝ) < (mg : ℝ) - (N : ℝ) * Real.sqrt (vg : ℝ)) ∨
         ((c.b : ℝ) > (mb : ℝ) + (N : ℝ) * Real.sqrt (vb : ℝ) ∨
          (c.b : ℝ) < (mb : ℝ) - (N : ℝ) * Real.sqrt (vb : ℝ)) ∨
         ((c.a : ℝ) > (ma : ℝ) + (N : ℝ) * Real.sqrt (va : ℝ) ∨
          (c.a : ℝ) < (ma : ℝ) - (N : ℝ) * Real.sqrt (va : ℝ)))) ∧
    filterPixels N mr vr mg vg mb vb ma va colors =
      ((colors.filter (keep N mr vr mg vg mb vb ma va)).map (fun c => (c.r : ℚ)),
       (colors.filter (keep N mr vr mg vg mb vb ma va)).map (fun c => (c.g : ℚ)),
       (colors.filter (keep N mr vr mg vg mb vb ma va)).map (fun c => (c.b : ℚ)),
       (colors.filter (keep N mr vr mg vg mb vb ma va)).map (fun c => (c.a : ℚ))) := by
  refine ⟨?_, filterPixels_eq_filter N mr vr mg vg mb vb ma va colors⟩
  intro c hc
  have hmem : c ∉ colors.filter (keep N mr vr mg vg mb vb ma va) ↔
      keep N mr vr mg vg mb vb ma va c = false := by
    rw [List.mem_filter]
    simp [hc, Bool.not_eq_true]
  rw [hmem, keep_eq_false_iff,
    rejectSq_iff_sqrt _ _ _ _ hN.le (sampleVariance_nonneg _ _ hvr),
    rejectSq_iff_sqrt _ _ _ _ hN.le (sampleVariance_nonneg _ _ hvg),
    rejectSq_iff_sqrt _ _ _ _ hN.le (sampleVariance_nonneg _ _ hvb),
    rejectSq_iff_sqrt _ _ _ _ hN.le (sampleVariance_nonneg _ _ hva)]
  norm_cast

theorem rejection_per_sample_any_channel_witness :
    (0 : ℚ) < 1 / 2 ∧
    sampleVariance (([⟨0, 0, 0, 0⟩, ⟨2, 2, 2, 2⟩] : List Pixel).map (fun c => (c.r : ℚ))) = some 2 ∧
    sampleVariance (([⟨0, 0, 0, 0⟩, ⟨2, 2, 2, 2⟩] : List Pixel).map (fun c => (c.g : ℚ))) = some 2 ∧
    sampleVariance (([⟨0, 0, 0, 0⟩, ⟨2, 2, 2, 2⟩] : List Pixel).map (fun c => (c.b : ℚ))) = some 2 ∧
    sampleVariance (([⟨0, 0, 0, 0⟩, ⟨2, 2, 2, 2⟩] : List Pixel).map (fun c => (c.a : ℚ))) = some 2 ∧
    ((∀ c ∈ ([⟨0, 0, 0, 0⟩, ⟨2, 2, 2, 2⟩] : List Pixel),
      c ∉ ([⟨0, 0, 0, 0⟩, ⟨2, 2, 2, 2⟩] : List Pixel).filter
          (keep (1 / 2) 1 2 1 2 1 2 1 2) ↔
        (((c.r : ℝ) > ((1 : ℚ) : ℝ) + ((1 / 2 : ℚ) : ℝ) * Real.sqrt ((2 : ℚ) : ℝ) ∨
          (c.r : ℝ) < ((1 : ℚ) : ℝ) - ((1 / 2 : ℚ) : ℝ) * Real.sqrt ((2 : ℚ) : ℝ)) ∨
         ((c.g : ℝ) > ((1 : ℚ) : ℝ) + ((1 / 2 : ℚ) : ℝ) * Real.sqrt ((2 : ℚ) : ℝ) ∨
          (c.g : ℝ) < ((1 : ℚ) : ℝ) - ((1 / 2 : ℚ) : ℝ) * Real.sqrt ((2 : ℚ) : ℝ)) ∨
         ((c.b : ℝ) > ((1 : ℚ) : ℝ) + ((1 / 2 : ℚ) : ℝ) * Real.sqrt ((2 : ℚ) : ℝ) ∨
          (c.b : ℝ) < ((1 : ℚ) : ℝ) - ((1 / 2 : ℚ) : ℝ) * Real.sqrt ((2 : ℚ) : ℝ)) ∨
         ((c.a : ℝ) > ((1 : ℚ) : ℝ) + ((1 / 2 : ℚ) : ℝ) * Real.sqrt ((2 : ℚ) : ℝ) ∨
          (c.a : ℝ) < ((1 : ℚ) : ℝ) - ((1 / 2 : ℚ) : ℝ) * Real.sqrt ((2 : ℚ) : ℝ)))) ∧
    filterPixels (1 / 2) 1 2 1 2 1 2 1 2 ([⟨0, 0, 0, 0⟩, ⟨2, 2, 2, 2⟩] : List Pixel) =
      ((([⟨0, 0, 0, 0⟩, ⟨2, 2, 2, 2⟩] : List Pixel).filter
          (keep (1 / 2) 1 2 1 2 1 2 1 2)).map (fun c => (c.r : ℚ)),
       (([⟨0, 0, 0, 0⟩, ⟨2, 2, 2, 2⟩] : List Pixel).filter
          (keep (1 / 2) 1 2 1 2 1 2 1 2)).map (fun c => (c.g : ℚ)),
       (([⟨0, 0, 0, 0⟩, ⟨2, 2, 2, 2⟩] : List Pixel).filter
          (keep (1 / 2) 1 2 1 2 1 2 1 2)).map (fun c => (c.b : ℚ)),
       (([⟨0, 0, 0, 0⟩, ⟨2, 2, 2, 2⟩] : List Pixel).filter
          (keep (1 / 2) 1 2 1 2 1 2 1 2)).map (fun c => (c.a : ℚ)))) :=
  ⟨by norm_num, by norm_num [sampleVariance, mean], by norm_num [sampleVariance, mean],
    by norm_num [sampleVariance, mean], by norm_num [sampleVariance, mean],
    rejection_per_sample_any_channel [⟨0, 0, 0, 0⟩, ⟨2, 2, 2, 2⟩] (1 / 2) 1 2 1 2 1 2 1 2
      (by norm_num) (by norm_num [sampleVariance, mean]) (by norm_num [sampleVariance, mean])
      (by norm_num [sampleVariance, mean]) (by norm_num [sampleVariance, mean])⟩

/-- C8: for a stack of k ≥ 2 identical pixels and positive N, `meanColor`
succeeds (no all-rejected error, no degenerate division) and returns a
pixel exactly equal to the common input pixel: every channel's variance is
0, the filter keeps every sample, and the survivor mean is the common
value. -/
theorem identical_stack_returns_common_pixel (k : ℕ) (p : Pixel) (N : ℚ)
    (hk : 2 ≤ k) (_hN : 0 < N)
    (hr : p.r ≤ 65535) (hg : p.g ≤ 65535) (hb : p.b ≤ 65535) (ha : p.a ≤ 65535) :
    meanColor (List.replicate k p) N = .ok p := by
  have hk0 : k ≠ 0 := by omega
  have hmr : meanVar ((List.replicate k p).map (fun c => (c.r : ℚ))) = .ok ((p.r : ℚ), 0) := by
    rw [List.map_replicate]
    unfold meanVar
    rw [mean_replicate _ _ hk0, sampleVariance_replicate _ _ hk]
  have hmg : meanVar ((List.replicate k p).map (fun c => (c.g : ℚ))) = .ok ((p.g : ℚ), 0) := by
    rw [List.map_replicate]
    unfold meanVar
    rw [mean_replicate _ _ hk0, sampleVariance_replicate _ _ hk]
  have hmb : meanVar ((List.replicate k p).map (fun c => (c.b : ℚ))) = .ok ((p.b : ℚ), 0) := by
    rw [List.map_replicate]
    unfold meanVar
    rw [mean_replicate _ _ hk0, sampleVariance_replicate _ _ hk]
  have hma : meanVar ((List.replicate k p).map (fun c => (c.a : ℚ))) = .ok ((p.a : ℚ), 0) := by
    rw [List.map_replicate]
    unfold meanVar
    rw [mean_replicate _ _ hk0, sampleVariance_replicate _ _ hk]
  have hkeepall : ∀ c ∈ List.replicate k p,
      keep N (p.r : ℚ) 0 (p.g : ℚ) 0 (p.b : ℚ) 0 (p.a : ℚ) 0 c = true := by
    intro c hc
    rw [List.eq_of_mem_replicate hc]
    unfold keep rejectSq
    norm_num
  have hfilter : (List.replicate k p).filter (keep N (p.r : ℚ) 0 (p.g : ℚ) 0 (p.b : ℚ) 0 (p.a : ℚ) 0) =
      List.replicate k p := List.filter_eq_self.mpr hkeepall
  have hSne : (List.replicate k p).filter (keep N (p.r : ℚ) 0 (p.g : ℚ) 0 (p.b : ℚ) 0 (p.a : ℚ) 0) ≠ [] := by
    rw [hfilter]
    intro hnil
    have hlen := congrArg List.length hnil
    simp at hlen
    exact hk0 hlen
  have hmain := meanColor_ok_eq (List.replicate k p) N (p.r : ℚ) 0 (p.g : ℚ) 0 (p.b : ℚ) 0 (p.a : ℚ) 0
    hmr hmg hmb hma hSne
  rw [hmain, hfilter]
  have hkQ : (k : ℚ) ≠ 0 := Nat.cast_ne_zero.mpr hk0
  have hchr : ((List.replicate k p).map (fun c => (c.r : ℚ))).sum /
      ((List.replicate k p).length : ℚ) = (p.r : ℚ) := by
    rw [List.map_replicate, List.sum_replicate, List.length_replicate, nsmul_eq_mul]
    exact mul_div_cancel_left₀ _ hkQ
  have hchg : ((List.replicate k p).map (fun c => (c.g : ℚ))).sum /
      ((List.replicate k p).length : ℚ) = (p.g : ℚ) := by
    rw [List.map_replicate, List.sum_replicate, List.length_replicate, nsmul_eq_mul]
    exact mul_div_cancel_left₀ _ hkQ
  have hchb : ((List.replicate k p).map (fun c => (c.b : ℚ))).sum /
      ((List.replicate k p).length : ℚ) = (p.b : ℚ) := by
    rw [List.map_replicate, List.sum_replicate, List.length_replicate, nsmul_eq_mul]
    exact mul_div_cancel_left₀ _ hkQ
  have hcha : ((List.replicate k p).map (fun c => (c.a : ℚ))).sum /
      ((List.replicate k p).length : ℚ) = (p.a : ℚ) := by
    rw [List.map_replicate, List.sum_replicate, List.length_replicate, nsmul_eq_mul]
    exact mul_div_cancel_left₀ _ hkQ
  rw [hchr, hchg, hchb, hcha, toUInt16_natCast _ hr, toUInt16_natCast _ hg,
    toUInt16_natCast _ hb, toUInt16_natCast _ ha]

theorem identical_stack_returns_common_pixel_witness :
    2 ≤ 2 ∧ (0 : ℚ) < 13 / 10 ∧
    (10 ≤ 65535 ∧ 10 ≤ 65535 ∧ 10 ≤ 65535 ∧ 255 ≤ 65535) ∧
    meanColor (List.replicate 2 (⟨10, 10, 10, 255⟩ : Pixel)) (13 / 10) =
      .ok ⟨10, 10, 10, 255⟩ :=
  ⟨by decide, by norm_num, by decide,
    identical_stack_returns_common_pixel 2 ⟨10, 10, 10, 255⟩ (13 / 10)
      (by decide) (by norm_num) (by decide) (by decide) (by decide) (by decide)⟩

theorem meanVar_singleton (x : ℚ) : meanVar [x] = .error .insufficientSamples := by
  unfold meanVar mean sampleVariance
  simp

theorem meanColor_singleton (p : Pixel) (N : ℚ) :
    meanColor [p] N = .error .insufficientSamples := by
  unfold meanColor
  simp [meanVar_singleton]

theorem coords_cons (b : Rect) (hx : b.minX < b.maxX) (hy : b.minY < b.maxY) :
    ∃ rest, coords b = (b.minX, b.minY) :: rest := by
  obtain ⟨m, hm⟩ : ∃ m, (b.maxY - b.minY).toNat = m + 1 :=
    ⟨(b.maxY - b.minY).toNat - 1, by omega⟩
  obtain ⟨k, hk⟩ : ∃ k, (b.maxX - b.minX).toNat = k + 1 :=
    ⟨(b.maxX - b.minX).toNat - 1, by omega⟩
  unfold coords
  rw [hm, hk, List.range_succ_eq_map, List.range_succ_eq_map]
  simp only [List.flatMap_cons, List.map_cons, Nat.cast_zero, add_zero, List.cons_append]
  exact ⟨_, rfl⟩

theorem find?_mismatch_none (grids : List Grid) (b : Rect)
    (hb : ∀ g ∈ grids, g.bounds = b) :
    grids.find? (fun g => decide (g.bounds ≠ b)) = none := by
  rw [List.find?_eq_none]
  intro g hg
  simp [hb g hg]

theorem run_eq_processPixels (g0 : Grid) (rest : List Grid) (N : ℚ)
    (hb : ∀ g ∈ g0 :: rest, g.bounds = g0.bounds) :
    run (g0 :: rest) N = processPixels (g0 :: rest) N (coords g0.bounds) := by
  simp only [run]
  rw [find?_mismatch_none _ _ hb]

/-- C4 (amended): a run with zero decoded images aborts up front with the
no-files error, but there is no fewer-than-two check: a single-image run
passes the pre-processing validation, enters the pixel loop, and fails
fatally at the first coordinate because the sample standard deviation of a
one-element sample set errors; no output pixel is computed. -/
theorem no_two_image_precondition (g : Grid) (N : ℚ)
    (hx : g.bounds.minX < g.bounds.maxX) (hy : g.bounds.minY < g.bounds.maxY) :
    run [] N = .error .noFiles ∧
    run [g] N = .error (.pixelError g.bounds.minX g.bounds.minY .insufficientSamples) := by
  refine ⟨rfl, ?_⟩
  rw [run_eq_processPixels g [] N (by intro g' hg'; simp at hg'; rw [hg'])]
  obtain ⟨rest, hc⟩ := coords_cons g.bounds hx hy
  rw [hc]
  simp only [processPixels, colorsAt, List.map_cons, List.map_nil]
  rw [meanColor_singleton]

theorem no_two_image_precondition_witness :
    ((⟨⟨0, 0, 1, 1⟩, fun _ _ => ⟨0, 0, 0, 0⟩⟩ : Grid).bounds.minX <
        (⟨⟨0, 0, 1, 1⟩, fun _ _ => ⟨0, 0, 0, 0⟩⟩ : Grid).bounds.maxX) ∧
    ((⟨⟨0, 0, 1, 1⟩, fun _ _ => ⟨0, 0, 0, 0⟩⟩ : Grid).bounds.minY <
        (⟨⟨0, 0, 1, 1⟩, fun _ _ => ⟨0, 0, 0, 0⟩⟩ : Grid).bounds.maxY) ∧
    (run [] (13 / 10) = .error .noFiles ∧
      run [⟨⟨0, 0, 1, 1⟩, fun _ _ => ⟨0, 0, 0, 0⟩⟩] (13 / 10) =
        .error (.pixelError 0 0 .insufficientSamples)) :=
  ⟨by decide, by decide,
    no_two_image_precondition ⟨⟨0, 0, 1, 1⟩, fun _ _ => ⟨0, 0, 0, 0⟩⟩ (13 / 10)
      (by decide) (by decide)⟩

/-- Counterexample to C4 as stated: a single-image run is not aborted
before pixel processing by an insufficient-images check — it reaches
coordinate (0, 0) and dies there with the statistics engine's
insufficient-samples failure. -/
theorem single_image_run_reaches_first_pixel :
    run [gridA] (13 / 10) = .error (.pixelError 0 0 .insufficientSamples) := by
  have hb : ∀ g ∈ [gridA], g.bounds = gridA.bounds := by
    intro g hg
    simp at hg
    rw [hg]
  have hc : coords gridA.bounds = [(0, 0)] := by decide
  rw [run_eq_processPixels gridA [] _ hb, hc]
  simp only [processPixels, colorsAt, List.map_cons, List.map_nil]
  rw [meanColor_singleton]

/-- C6: when some input grid's bounds differ from the first grid's, the
run fails with the dimension-mismatch error naming the conflicting bounds
(offending bounds first, reference bounds second), and no pixel result is
produced: `run` returns before the pixel loop. -/
theorem dimension_mismatch_aborts_run (g0 : Grid) (rest : List Grid) (N : ℚ)
    (g : Grid) (hg : g ∈ g0 :: rest) (hne : g.bounds ≠ g0.bounds) :
    ∃ gBad : Grid, gBad.bounds ≠ g0.bounds ∧
      run (g0 :: rest) N = .error (.dimensionMismatch gBad.bounds g0.bounds) := by
  have hsome : ((g0 :: rest).find? (fun g' => decide (g'.bounds ≠ g0.bounds))).isSome := by
    rw [List.find?_isSome]
    exact ⟨g, hg, by simp [hne]⟩
  obtain ⟨gBad, hfind⟩ := Option.isSome_iff_exists.mp hsome
  have hbad : gBad.bounds ≠ g0.bounds := by
    have := List.find?_some hfind
    simpa using this
  refine ⟨gBad, hbad, ?_⟩
  simp only [run]
  rw [hfind]

theorem meanColor_allRejected (colors : List Pixel) (N mr vr mg vg mb vb ma va : ℚ)
    (hmr : meanVar (colors.map (fun c => (c.r : ℚ))) = .ok (mr, vr))
    (hmg : meanVar (colors.map (fun c => (c.g : ℚ))) = .ok (mg, vg))
    (hmb : meanVar (colors.map (fun c => (c.b : ℚ))) = .ok (mb, vb))
    (hma : meanVar (colors.map (fun c => (c.a : ℚ))) = .ok (ma, va))
    (hall : ∀ c ∈ colors, keep N mr vr mg vg mb vb ma va c = false) :
    meanColor colors N = .error .allRejected := by
  have hfe : colors.filter (keep N mr vr mg vg mb vb ma va) = [] := by
    rw [List.filter_eq_nil_iff]
    intro c hc
    simp [hall c hc]
  unfold meanColor
  simp only [hmr, hmg, hmb, hma, filterPixels_eq_filter, hfe]
  simp

theorem processPixels_first_error (grids : List Grid) (N : ℚ) (pre post : List (ℤ × ℤ))
    (x y : ℤ) (e : CError)
    (hpre : ∀ q ∈ pre, ∃ c, meanColor (colorsAt q.1 q.2 grids) N = .ok c)
    (herr : meanColor (colorsAt x y grids) N = .error e) :
    processPixels grids N (pre ++ (x, y) :: post) = .error (.pixelError x y e) := by
  induction pre with
  | nil =>
    simp only [List.nil_append, processPixels, herr]
  | cons q pre ih =>
    obtain ⟨qx, qy⟩ := q
    obtain ⟨c, hc⟩ := hpre (qx, qy) (List.mem_cons_self _ _)
    have ihh := ih (fun q hq => hpre q (List.mem_cons_of_mem _ hq))
    simp only [List.cons_append, processPixels, hc, List.append_eq, ihh]

/-- C5: if every stack pixel at a coordinate is rejected by the filter
(while the statistics stage succeeded there), `meanColor` returns the
all-pixels-rejected error; the run halts fatally at the first such
coordinate, no later coordinate being processed, and the user-visible
message names the coordinate and suggests raising N. -/
theorem all_rejected_fatal_at_first_coordinate (g0 : Grid) (rest : List Grid) (N : ℚ)
    (x y : ℤ) (pre post : List (ℤ × ℤ)) (mr vr mg vg mb vb ma va : ℚ)
    (hb : ∀ g ∈ g0 :: rest, g.bounds = g0.bounds)
    (hsplit : coords g0.bounds = pre ++ (x, y) :: post)
    (hpre : ∀ q ∈ pre, ∃ c, meanColor (colorsAt q.1 q.2 (g0 :: rest)) N = .ok c)
    (hmr : meanVar ((colorsAt x y (g0 :: rest)).map (fun c => (c.r : ℚ))) = .ok (mr, vr))
    (hmg : meanVar ((colorsAt x y (g0 :: rest)).map (fun c => (c.g : ℚ))) = .ok (mg, vg))
    (hmb : meanVar ((colorsAt x y (g0 :: rest)).map (fun c => (c.b : ℚ))) = .ok (mb, vb))
    (hma : meanVar ((colorsAt x y (g0 :: rest)).map (fun c => (c.a : ℚ))) = .ok (ma, va))
    (hall : ∀ c ∈ colorsAt x y (g0 :: rest), keep N mr vr mg vg mb vb ma va c = false) :
    meanColor (colorsAt x y (g0 :: rest)) N = .error .allRejected ∧
    run (g0 :: rest) N = .error (.pixelError x y .allRejected) ∧
    fatalPixelMsg x y allRejectedMsg =
      "failed to get mean pixel color at x=" ++ toString x ++ " y=" ++ toString y ++ ": " ++
        "standard deviation filter removed all pixels; use a higher --N value to make the filter more permissive" := by
  have hmc := meanColor_allRejected _ N mr vr mg vg mb vb ma va hmr hmg hmb hma hall
  refine ⟨hmc, ?_, rfl⟩
  rw [run_eq_processPixels g0 rest N hb, hsplit]
  exact processPixels_first_error _ N pre post x y .allRejected hpre hmc

theorem all_rejected_fatal_at_first_coordinate_witness :
    (∀ g ∈ [gridA, gridB], g.bounds = gridA.bounds) ∧
    coords gridA.bounds = [] ++ (0, 0) :: [] ∧
    meanVar ((colorsAt 0 0 [gridA, gridB]).map (fun c => (c.r : ℚ))) = .ok (1, 2) ∧
    (∀ c ∈ colorsAt 0 0 [gridA, gridB], keep (1 / 2) 1 2 1 2 1 2 1 2 c = false) ∧
    (meanColor (colorsAt 0 0 [gridA, gridB]) (1 / 2) = .error .allRejected ∧
      run [gridA, gridB] (1 / 2) = .error (.pixelError 0 0 .allRejected) ∧
      fatalPixelMsg 0 0 allRejectedMsg =
        "failed to get mean pixel color at x=" ++ toString (0 : ℤ) ++ " y=" ++
          toString (0 : ℤ) ++ ": " ++
          "standard deviation filter removed all pixels; use a higher --N value to make the filter more permissive") := by
  have hb : ∀ g ∈ [gridA, gridB], g.bounds = gridA.bounds := by
    intro g hg
    simp at hg
    rcases hg with rfl | rfl <;> rfl
  have hsplit : coords gridA.bounds = [] ++ (0, 0) :: [] := by decide
  have hmv : ∀ f : Pixel → ℕ, (f ⟨0, 0, 0, 0⟩ = 0) → (f ⟨2, 2, 2, 2⟩ = 2) →
      meanVar ((colorsAt 0 0 [gridA, gridB]).map (fun c => (f c : ℚ))) = .ok (1, 2) := by
    intro f h0 h2
    norm_num [colorsAt, gridA, gridB, meanVar, sampleVariance, mean, h0, h2]
  have hmr := hmv (fun c => c.r) rfl rfl
  have hmg := hmv (fun c => c.g) rfl rfl
  have hmb := hmv (fun c => c.b) rfl rfl
  have hma := hmv (fun c => c.a) rfl rfl
  have hall : ∀ c ∈ colorsAt 0 0 [gridA, gridB], keep (1 / 2) 1 2 1 2 1 2 1 2 c = false := by
    intro c hc
    simp [colorsAt, gridA, gridB] at hc
    rcases hc with rfl | rfl <;> norm_num [keep, rejectSq]
  exact ⟨hb, hsplit, hmr, hall,
    all_rejected_fatal_at_first_coordinate gridA [gridB] (1 / 2) 0 0 [] [] 1 2 1 2 1 2 1 2
      hb hsplit (by simp) hmr hmg hmb hma hall⟩

theorem dimension_mismatch_aborts_run_witness :
    gridWide ∈ [gridA, gridWide] ∧ gridWide.bounds ≠ gridA.bounds ∧
    ∃ gBad : Grid, gBad.bounds ≠ gridA.bounds ∧
      run [gridA, gridWide] 1 = .error (.dimensionMismatch gBad.bounds gridA.bounds) :=
  ⟨List.mem_cons_of_mem _ (List.mem_cons_self _ _), by decide,
    dimension_mismatch_aborts_run gridA [gridWide] 1 gridWide
      (List.mem_cons_of_mem _ (List.mem_cons_self _ _)) (by decide)⟩
